import Mathlib

/-!
Verification of the flash-sale bidding engine (`backend/src/app`).

The development is a shallow embedding of the services that the claims
touch: the Redis-resident leaderboard (`redis_service.py`), the scoring
and bid-upsert path (`bid_service.py`), the settlement procedure
(`settlement_service.py`) and the four-layer inventory primitive
(`inventory_service.py`).

Modelling conventions:
* numeric values that the Python code keeps as `float`/`Decimal` and the
  Redis scores are modelled as rationals (`ℚ`); machine floating-point
  rounding is not modelled;
* user ids are `String`s (Redis sorted-set members), so the lexicographic
  tie-break of the sorted set is the `String` order;
* the embedding fixes one campaign and its product, so the durable bid
  table keyed on `(campaign_id, user_id)` is keyed on the user id alone,
  and async/await effects become explicit state passing;
* the Redis sorted set is a finite member-to-score association; `ZADD`
  updates in place, `ZREVRANGE` sorts by descending score with equal
  scores in descending member order (the reverse of the set ordering,
  which is ascending score then ascending member), and `ZREVRANGE key 0 (k-1)`
  with `k = 0` denotes the range `0 .. -1`, i.e. the whole set.
-/

namespace FlashSale

deriving instance DecidableEq for Except

/-- Sorted-set members are user-id strings. -/
abbrev Member := String

/-! ### Redis sorted-set model (`redis_service.py`) -/

/-- The `ZREVRANGE` ordering on sorted-set entries: higher score first,
and for equal scores the lexicographically greater member first (Redis
orders equal-score members ascending, and `ZREVRANGE` reverses). -/
def zrevLe (a b : Member × ℚ) : Prop :=
  b.2 < a.2 ∨ (a.2 = b.2 ∧ b.1 ≤ a.1)

instance : DecidableRel zrevLe := fun a b =>
  decidable_of_iff (b.2 < a.2 ∨ (a.2 = b.2 ∧ b.1.toList ≤ a.1.toList)) (by
    simp [zrevLe, String.le_iff_toList_le])

instance : IsTotal (Member × ℚ) zrevLe := by
  constructor
  intro a b
  rcases lt_trichotomy a.2 b.2 with h | h | h
  · exact Or.inr (Or.inl h)
  · rcases le_total a.1 b.1 with h1 | h1
    · exact Or.inr (Or.inr ⟨h.symm, h1⟩)
    · exact Or.inl (Or.inr ⟨h, h1⟩)
  · exact Or.inl (Or.inl h)

instance : IsTrans (Member × ℚ) zrevLe := by
  constructor
  intro a b c hab hbc
  rcases hab with hab | ⟨hab, hab1⟩
  · rcases hbc with hbc | ⟨hbc, _⟩
    · exact Or.inl (hbc.trans hab)
    · exact Or.inl (hbc ▸ hab)
  · rcases hbc with hbc | ⟨hbc, hbc1⟩
    · exact Or.inl (hab ▸ hbc)
    · exact Or.inr ⟨hab.trans hbc, hbc1.trans hab1⟩

/-- All entries of the set in `ZREVRANGE` order (descending scores; equal
scores in descending member order). -/
def zrevrangeAll (entries : List (Member × ℚ)) : List (Member × ℚ) :=
  List.insertionSort zrevLe entries

/-- The slice `ZREVRANGE key 0 (k-1)` used by `get_top_k`: for `k = 0`
the Redis stop index is `-1`, which denotes the last element, so the
whole set is returned. -/
def zrevrangeTop (entries : List (Member × ℚ)) (k : ℕ) : List (Member × ℚ) :=
  if k = 0 then zrevrangeAll entries else (zrevrangeAll entries).take k

/-- One ranking entry produced by `RedisService.get_top_k`. -/
structure RankEntry where
  rank : ℕ
  userId : Member
  score : ℚ
deriving DecidableEq

/-- `RedisService.get_top_k`: `ZREVRANGE key 0 (k-1)` with scores, ranks
assigned by 1-based enumeration of the reply. -/
def get_top_k (entries : List (Member × ℚ)) (k : ℕ) : List RankEntry :=
  (zrevrangeTop entries k).enum.map (fun p => ⟨p.1 + 1, p.2.1, p.2.2⟩)

/-- `ZADD key {member: score}`: update the member score in place, or
append a fresh member. -/
def zadd (entries : List (Member × ℚ)) (uid : Member) (score : ℚ) :
    List (Member × ℚ) :=
  if entries.any (fun e => e.1 == uid) then
    entries.map (fun e => if e.1 = uid then (uid, score) else e)
  else entries ++ [(uid, score)]

/-- `ZREVRANK key member`: 0-based position of a member in the
`ZREVRANGE` enumeration. -/
def zrevrank (entries : List (Member × ℚ)) (uid : Member) : Option ℕ :=
  (zrevrangeAll entries).findIdx? (fun e => e.1 == uid)

/-- The `bid_details` hash write performed alongside `ZADD` (only the
price field matters to the claims). -/
def hsetPrice (details : List (Member × ℚ)) (uid : Member) (price : ℚ) :
    List (Member × ℚ) :=
  if details.any (fun e => e.1 == uid) then
    details.map (fun e => if e.1 = uid then (uid, price) else e)
  else details ++ [(uid, price)]

/-- `RedisService.update_max_price` Lua script: read the cell (absent
reads as 0) and overwrite only when the new price is strictly greater. -/
def update_max_price (cell : Option ℚ) (price : ℚ) : Option ℚ :=
  let current := cell.getD 0
  if current < price then some price else cell

/-- `RedisService.decrement_stock` Lua script: if the counter is at least
1, decrement and return the new value, else return -1 and leave the
counter untouched. Result is `(reply, new counter value)`. -/
def decrement_stock (kv : ℤ) : ℤ × ℤ :=
  if 1 ≤ kv then (kv - 1, kv - 1) else (-1, kv)

/-- `RedisService.increment_stock` (`INCR`), used for rollback. -/
def increment_stock (kv : ℤ) : ℤ :=
  kv + 1

/-! ### Scoring (`bid_service.calculate_score`) -/

/-- Score formula from `bid_service.calculate_score`:
alpha * P + beta / (T + 1) + gamma * W. -/
def calculate_score (price : ℚ) (time_elapsed_ms : ℕ) (weight alpha beta gamma : ℚ) : ℚ :=
  alpha * price + beta / ((time_elapsed_ms : ℚ) + 1) + gamma * weight

/-! ### Durable bid table (`models/bid.py`, unique on (campaign, user)) -/

/-- One row of the `bids` table (campaign and product ids are fixed by
the embedding). -/
structure BidRow where
  userId : Member
  price : ℚ
  score : ℚ
  timeElapsedMs : ℕ
  bidNumber : ℕ
deriving DecidableEq

/-- `SELECT ... WHERE campaign_id = ? AND user_id = ?` on the bid table
(`scalar_one_or_none`). -/
def findBid : List BidRow → Member → Option BidRow
  | [], _ => none
  | b :: rest, uid => if b.userId = uid then some b else findBid rest uid

/-- The `INSERT ... ON CONFLICT (campaign_id, user_id) DO UPDATE ...
RETURNING` statement of `bid_service.create_or_update_bid`: insert with
`bid_number = 1` when the key is absent, otherwise overwrite price,
score and elapsed-ms and increment `bid_number`.  Returns the new table
together with the returned row. -/
def upsertBid : List BidRow → Member → ℚ → ℚ → ℕ → List BidRow × BidRow
  | [], uid, price, score, t =>
    ([{ userId := uid, price := price, score := score, timeElapsedMs := t, bidNumber := 1 }],
     { userId := uid, price := price, score := score, timeElapsedMs := t, bidNumber := 1 })
  | b :: rest, uid, price, score, t =>
    if b.userId = uid then
      let row := { b with price := price, score := score, timeElapsedMs := t,
                          bidNumber := b.bidNumber + 1 }
      (row :: rest, row)
    else
      let p := upsertBid rest uid price score t
      (b :: p.1, p.2)

/-- Number of bid rows for a user (the unique constraint demands this is
at most 1). -/
def countUser (bids : List BidRow) (uid : Member) : ℕ :=
  bids.countP (fun b => decide (b.userId = uid))

/-! ### Bid service state and `create_or_update_bid` -/

/-- State touched by one campaign's bid path: the durable bid table, the
campaign's ranking sorted set, the bid-detail hashes, and the cached
max-price cell. -/
structure BidState where
  bids : List BidRow
  ranking : List (Member × ℚ)
  bidDetails : List (Member × ℚ)
  maxPrice : Option ℚ
deriving DecidableEq

/-- `bid_service.create_or_update_bid`: reject below-minimum prices with
PRICE_TOO_LOW before touching any state; otherwise compute the score,
run the durable upsert, update the sorted set and detail hash, read the
1-based rank back (0 when absent), and apply the max-price
compare-and-set.  Returns (returned row, rank, new state). -/
def create_or_update_bid (s : BidState) (uid : Member)
    (price min_price weight alpha beta gamma : ℚ) (time_elapsed_ms : ℕ) :
    Except String (BidRow × ℕ × BidState) :=
  if price < min_price then .error ("PRICE_TOO_LOW")
  else
    let score := calculate_score price time_elapsed_ms weight alpha beta gamma
    let up := upsertBid s.bids uid price score time_elapsed_ms
    let ranking := zadd s.ranking uid score
    let details := hsetPrice s.bidDetails uid price
    let rank := match zrevrank ranking uid with
      | some r => r + 1
      | none => 0
    let maxP := update_max_price s.maxPrice price
    .ok (up.2, rank, { bids := up.1, ranking := ranking, bidDetails := details, maxPrice := maxP })

/-- The state after one `POST /bids` call: the new state on acceptance,
the old state unchanged when the service raises (the API maps the error
to a 4xx with no side effects). -/
def submitBidRun (s : BidState) (uid : Member)
    (price min_price weight alpha beta gamma : ℚ) (time_elapsed_ms : ℕ) : BidState :=
  match create_or_update_bid s uid price min_price weight alpha beta gamma time_elapsed_ms with
  | .ok (_, _, s2) => s2
  | .error _ => s

/-- One submission in a sequence of `SubmitBid` calls by a fixed user:
its price and its elapsed time. -/
structure SubmitCall where
  price : ℚ
  timeElapsedMs : ℕ
deriving DecidableEq

/-- A sequence of `SubmitBid` calls by one user in one campaign. -/
def submitSeq (s : BidState) (uid : Member) (min_price weight alpha beta gamma : ℚ) :
    List SubmitCall → BidState
  | [] => s
  | c :: rest =>
    submitSeq (submitBidRun s uid c.price min_price weight alpha beta gamma c.timeElapsedMs)
      uid min_price weight alpha beta gamma rest

/-! ### Settlement (`settlement_service.py`) and inventory (`inventory_service.py`) -/

/-- The `products` row: remaining stock and the optimistic-concurrency
version counter (`models/product.py`). -/
structure ProductRow where
  stock : ℕ
  version : ℕ
deriving DecidableEq

/-- The `campaigns` row fields that settlement touches: the quota
snapshotted from the product stock at creation (migration 004) and the
status string. -/
structure CampaignRow where
  quota : ℕ
  status : String
deriving DecidableEq

/-- One row of the `orders` table (campaign and product ids fixed by the
embedding). -/
structure OrderRow where
  userId : Member
  finalPrice : ℚ
  finalScore : ℚ
  finalRank : ℕ
  status : String
deriving DecidableEq

/-- State touched by `settle_campaign` for one campaign and its product:
the campaign row (`none` models a missing row), the durable product row,
the Redis stock counter, the product lock (`lockHeld = true` when some
other owner holds `lock:product:<id>`), the ranking sorted set, the
durable bid table and the orders table. -/
structure SettleState where
  campaign : Option CampaignRow
  product : ProductRow
  kvStock : ℤ
  lockHeld : Bool
  ranking : List (Member × ℚ)
  bids : List BidRow
  orders : List OrderRow
deriving DecidableEq

/-- The per-winner body of the settlement loop
(`settlement_service.settle_campaign`, the `for ranking in top_k` body):
acquire the product lock (skip the winner when it is already held),
run the atomic KV decrement, on the -1 reply "roll back" with
`increment_stock` and skip, look the winner's durable bid up, on a
missing bid roll the decrement back and skip, otherwise insert a
confirmed order carrying the bid price and the leaderboard score and
rank.  The lock is released in the `finally` block, so the ambient
`lockHeld` flag is unchanged by the step. -/
def settleWinnerStep (s : SettleState) (r : RankEntry) : SettleState × Option OrderRow :=
  if s.lockHeld then (s, none)
  else
    let res := decrement_stock s.kvStock
    if res.1 < 0 then
      ({ s with kvStock := increment_stock res.2 }, none)
    else
      match findBid s.bids r.userId with
      | none => ({ s with kvStock := increment_stock res.2 }, none)
      | some bid =>
        let o : OrderRow :=
          { userId := r.userId, finalPrice := bid.price, finalScore := r.score,
            finalRank := r.rank, status := "confirmed" }
        ({ s with kvStock := res.2, orders := s.orders ++ [o] }, some o)

/-- The settlement loop over the fetched winners, collecting the created
orders in order. -/
def settleLoop : SettleState → List RankEntry → SettleState × List OrderRow
  | s, [] => (s, [])
  | s, r :: rest =>
    let p := settleWinnerStep s r
    let q := settleLoop p.1 rest
    (q.1, p.2.elim q.2 (fun o => o :: q.2))

/-- `settlement_service.settle_campaign`: error when the campaign row is
missing; return the empty list untouched when the status is already
"ended"; otherwise read K from the live `campaign.product.stock`, fetch
the top K from the ranking set, run the winner loop, and finally set the
campaign status to "ended". -/
def settle_campaign (s : SettleState) : Except String (List OrderRow × SettleState) :=
  match s.campaign with
  | none => .error ("Campaign not found")
  | some c =>
    if c.status = "ended" then .ok ([], s)
    else
      let stock := s.product.stock
      let top_k := get_top_k s.ranking stock
      let p := settleLoop s top_k
      .ok (p.2, { p.1 with campaign := some { c with status := "ended" } })

/-- Layers 3 and 4 of `inventory_service._db_decrement_with_lock`:
select the product row for update, reject when its stock is below 1,
then run the version-checked update decrementing the stock and bumping
the version.  In this sequential embedding the row is read under the row
lock with no interleaving, so the version seen always matches and the
update touches one row. -/
def db_decrement_with_lock (p : ProductRow) : Except String ProductRow :=
  if p.stock < 1 then .error ("InsufficientStock")
  else .ok { stock := p.stock - 1, version := p.version + 1 }

/-- `inventory_service.decrement_stock_with_protection`: the four-layer
decrement.  Layer 1 distributed lock (fail when held), layer 2 atomic KV
decrement (fail on -1, no rollback needed), layers 3 and 4 durable row
lock plus version-checked update (roll the KV decrement back on
failure).  Result is (success, product row, KV counter). -/
def decrement_stock_with_protection (p : ProductRow) (kv : ℤ) (lockHeld : Bool) :
    Bool × ProductRow × ℤ :=
  if lockHeld then (false, p, kv)
  else
    let res := decrement_stock kv
    if res.1 < 0 then (false, p, res.2)
    else
      match db_decrement_with_lock p with
      | .ok p2 => (true, p2, res.2)
      | .error _ => (false, p, increment_stock res.2)

/-! ### Concrete states used by the counterexamples and witnesses -/

/-- A reachable settlement state for a campaign created on a product
with stock 0 (the product schema allows `stock ≥ 0` and campaign
creation snapshots `quota = product.stock` with no positivity check):
quota 0, live and KV stock 0, two bidders with durable bid rows. -/
def zeroQuotaState : SettleState :=
  { campaign := some { quota := 0, status := "active" }
  , product := { stock := 0, version := 0 }
  , kvStock := 0
  , lockHeld := false
  , ranking := [("u1", 100), ("u2", 90)]
  , bids := [⟨"u1", 50, 100, 10, 1⟩, ⟨"u2", 40, 90, 20, 1⟩]
  , orders := [] }

/-- A settlement state whose live product stock (1) differs from the
snapshotted quota (3): three ranked bidders with durable rows and an
ample KV counter, so the only binding constraint is whichever value the
code takes K from. -/
def liveStockState : SettleState :=
  { campaign := some { quota := 3, status := "active" }
  , product := { stock := 1, version := 0 }
  , kvStock := 3
  , lockHeld := false
  , ranking := [("u1", 300), ("u2", 200), ("u3", 100)]
  , bids := [⟨"u1", 90, 300, 5, 1⟩, ⟨"u2", 80, 200, 6, 1⟩, ⟨"u3", 70, 100, 7, 1⟩]
  , orders := [] }

/-- A one-winner settlement state with a distinguishable product version
(7), used to observe whether settlement runs the durable row-lock and
version-checked update. -/
def fourLayerState : SettleState :=
  { campaign := some { quota := 1, status := "active" }
  , product := { stock := 1, version := 7 }
  , kvStock := 1
  , lockHeld := false
  , ranking := [("w1", 500)]
  , bids := [⟨"w1", 60, 500, 3, 1⟩]
  , orders := [] }

/-- The post-settlement state of `fourLayerState` according to the code:
the order is inserted and the KV counter drops, but the durable product
row keeps stock 1 and version 7. -/
def fourLayerPost : SettleState :=
  { campaign := some { quota := 1, status := "ended" }
  , product := { stock := 1, version := 7 }
  , kvStock := 0
  , lockHeld := false
  , ranking := [("w1", 500)]
  , bids := [⟨"w1", 60, 500, 3, 1⟩]
  , orders := [⟨"w1", 60, 500, 1, "confirmed"⟩] }

/-- Two sorted-set entries with equal scores and distinct members, the
tie-break demonstration set. -/
def demoTieEntries : List (Member × ℚ) :=
  [("u1", 5), ("u2", 5)]

/-- An already-ended campaign state (used for the idempotence witness). -/
def endedState : SettleState :=
  { campaign := some { quota := 2, status := "ended" }
  , product := { stock := 2, version := 0 }
  , kvStock := 0
  , lockHeld := false
  , ranking := [("u1", 100)]
  , bids := [⟨"u1", 50, 100, 10, 1⟩]
  , orders := [⟨"u1", 50, 100, 1, "confirmed"⟩] }

/-- The empty bid-path state (no rows, empty sorted set, no cached max
price). -/
def emptyBidState : BidState :=
  { bids := [], ranking := [], bidDetails := [], maxPrice := none }

/-- A one-winner state for the witness of the per-winner settlement-step
theorem. -/
def stepWitnessState : SettleState :=
  { campaign := some { quota := 1, status := "active" }
  , product := { stock := 1, version := 0 }
  , kvStock := 1
  , lockHeld := false
  , ranking := [("w1", 42)]
  , bids := [⟨"w1", 9, 42, 2, 1⟩]
  , orders := [] }

/-- A state whose leaderboard contains a member with no durable bid row
(used for the missing-bid skip witness). -/
def ghostBidState : SettleState :=
  { campaign := some { quota := 1, status := "active" }
  , product := { stock := 1, version := 0 }
  , kvStock := 1
  , lockHeld := false
  , ranking := [("ghost", 50)]
  , bids := []
  , orders := [] }

/-- Two accepted submissions used by the C5 witness. -/
def demoCalls : List SubmitCall :=
  [⟨20, 0⟩, ⟨30, 5⟩]

/-- The single order created when settling `liveStockState`. -/
def liveStockOrders : List OrderRow :=
  [⟨"u1", 90, 300, 1, "confirmed"⟩]

/-- The post-settlement state of `liveStockState`: one order, KV counter
3 down to 2, campaign marked ended, quota and product untouched. -/
def liveStockPost : SettleState :=
  { campaign := some { quota := 3, status := "ended" }
  , product := { stock := 1, version := 0 }
  , kvStock := 2
  , lockHeld := false
  , ranking := [("u1", 300), ("u2", 200), ("u3", 100)]
  , bids := [⟨"u1", 90, 300, 5, 1⟩, ⟨"u2", 80, 200, 6, 1⟩, ⟨"u3", 70, 100, 7, 1⟩]
  , orders := liveStockOrders }

/-- The order created by the settlement step at `stepWitnessState`. -/
def stepWitnessOrder : OrderRow :=
  ⟨"w1", 9, 42, 1, "confirmed"⟩

/-- The state after the settlement step at `stepWitnessState`. -/
def stepWitnessPost : SettleState :=
  { campaign := some { quota := 1, status := "active" }
  , product := { stock := 1, version := 0 }
  , kvStock := 0
  , lockHeld := false
  , ranking := [("w1", 42)]
  , bids := [⟨"w1", 9, 42, 2, 1⟩]
  , orders := [stepWitnessOrder] }

/-! ### Helper lemmas on the bid table -/

theorem findBid_none_countUser {bids : List BidRow} {uid : Member}
    (h : findBid bids uid = none) : countUser bids uid = 0 := by
  induction bids with
  | nil => rfl
  | cons b rest ih =>
    by_cases hb : b.userId = uid
    · simp [findBid, hb] at h
    · simp only [findBid, hb, if_false] at h
      have h2 := ih h
      unfold countUser at h2 ⊢
      rw [List.countP_cons, h2]
      simp [hb]

theorem upsertBid_snd_fields (bids : List BidRow) (uid : Member) (price score : ℚ) (t : ℕ) :
    ((upsertBid bids uid price score t).2).userId = uid ∧
    ((upsertBid bids uid price score t).2).price = price ∧
    ((upsertBid bids uid price score t).2).score = score ∧
    ((upsertBid bids uid price score t).2).timeElapsedMs = t := by
  induction bids with
  | nil => exact ⟨rfl, rfl, rfl, rfl⟩
  | cons b rest ih =>
    by_cases hb : b.userId = uid
    · simp [upsertBid, hb]
    · simpa [upsertBid, hb] using ih

theorem findBid_upsertBid (bids : List BidRow) (uid : Member) (price score : ℚ) (t : ℕ) :
    findBid (upsertBid bids uid price score t).1 uid
      = some (upsertBid bids uid price score t).2 := by
  induction bids with
  | nil => simp [upsertBid, findBid]
  | cons b rest ih =>
    by_cases hb : b.userId = uid
    · simp [upsertBid, findBid, hb]
    · simpa [upsertBid, findBid, hb] using ih

theorem upsertBid_snd_of_none {bids : List BidRow} {uid : Member}
    (h : findBid bids uid = none) (price score : ℚ) (t : ℕ) :
    (upsertBid bids uid price score t).2
      = { userId := uid, price := price, score := score, timeElapsedMs := t, bidNumber := 1 } := by
  induction bids with
  | nil => rfl
  | cons b rest ih =>
    by_cases hb : b.userId = uid
    · simp [findBid, hb] at h
    · simp only [findBid, hb, if_false] at h
      simpa [upsertBid, hb] using ih h

theorem upsertBid_snd_of_some {bids : List BidRow} {uid : Member} {b0 : BidRow}
    (h : findBid bids uid = some b0) (price score : ℚ) (t : ℕ) :
    (upsertBid bids uid price score t).2
      = { b0 with price := price, score := score, timeElapsedMs := t,
                  bidNumber := b0.bidNumber + 1 } := by
  induction bids with
  | nil => simp [findBid] at h
  | cons b rest ih =>
    by_cases hb : b.userId = uid
    · simp only [findBid, hb, if_true, Option.some.injEq] at h
      subst h
      simp [upsertBid, hb]
    · simp only [findBid, hb, if_false] at h
      simpa [upsertBid, hb] using ih h

theorem countUser_upsertBid_of_some {bids : List BidRow} {uid : Member} {b0 : BidRow}
    (h : findBid bids uid = some b0) (price score : ℚ) (t : ℕ) :
    countUser (upsertBid bids uid price score t).1 uid = countUser bids uid := by
  induction bids with
  | nil => simp [findBid] at h
  | cons b rest ih =>
    by_cases hb : b.userId = uid
    · simp [upsertBid, hb, countUser, List.countP_cons]
    · simp only [findBid, hb, if_false] at h
      have h2 := ih h
      unfold countUser at h2 ⊢
      simp only [upsertBid, hb, if_false]
      rw [List.countP_cons, List.countP_cons, h2]

theorem countUser_upsertBid_of_none {bids : List BidRow} {uid : Member}
    (h : findBid bids uid = none) (price score : ℚ) (t : ℕ) :
    countUser (upsertBid bids uid price score t).1 uid = countUser bids uid + 1 := by
  induction bids with
  | nil => simp [upsertBid, countUser, List.countP_cons]
  | cons b rest ih =>
    by_cases hb : b.userId = uid
    · simp [findBid, hb] at h
    · simp only [findBid, hb, if_false] at h
      have h2 := ih h
      unfold countUser at h2 ⊢
      simp only [upsertBid, hb, if_false]
      rw [List.countP_cons, List.countP_cons, h2]
      simp [hb]

theorem create_or_update_bid_accepted (s : BidState) (uid : Member)
    (price min_price weight alpha beta gamma : ℚ) (T : ℕ) (h : min_price ≤ price) :
    create_or_update_bid s uid price min_price weight alpha beta gamma T =
      .ok ((upsertBid s.bids uid price (calculate_score price T weight alpha beta gamma) T).2,
           (match zrevrank (zadd s.ranking uid (calculate_score price T weight alpha beta gamma)) uid
              with
            | some r => r + 1
            | none => 0),
           { bids :=
               (upsertBid s.bids uid price (calculate_score price T weight alpha beta gamma) T).1,
             ranking := zadd s.ranking uid (calculate_score price T weight alpha beta gamma),
             bidDetails := hsetPrice s.bidDetails uid price,
             maxPrice := update_max_price s.maxPrice price }) := by
  unfold create_or_update_bid
  rw [if_neg (not_lt.mpr h)]

theorem submitBidRun_bids_accepted (s : BidState) (uid : Member)
    (price min_price weight alpha beta gamma : ℚ) (T : ℕ) (h : min_price ≤ price) :
    (submitBidRun s uid price min_price weight alpha beta gamma T).bids
      = (upsertBid s.bids uid price (calculate_score price T weight alpha beta gamma) T).1 := by
  unfold submitBidRun
  rw [create_or_update_bid_accepted s uid price min_price weight alpha beta gamma T h]

theorem submitSeq_existing (uid : Member) (min_price weight alpha beta gamma : ℚ)
    (calls : List SubmitCall) :
    ∀ (s : BidState) (b0 : BidRow), (∀ c ∈ calls, min_price ≤ c.price) →
      findBid s.bids uid = some b0 →
      countUser (submitSeq s uid min_price weight alpha beta gamma calls).bids uid
        = countUser s.bids uid ∧
      ∃ b, findBid (submitSeq s uid min_price weight alpha beta gamma calls).bids uid = some b ∧
        b.bidNumber = b0.bidNumber + calls.length := by
  induction calls with
  | nil => intro s b0 _ hf; exact ⟨rfl, b0, hf, by simp⟩
  | cons c rest ih =>
    intro s b0 hacc hf
    have hc : min_price ≤ c.price := hacc c (by simp)
    have hbids :
        (submitBidRun s uid c.price min_price weight alpha beta gamma c.timeElapsedMs).bids
          = (upsertBid s.bids uid c.price
              (calculate_score c.price c.timeElapsedMs weight alpha beta gamma)
              c.timeElapsedMs).1 :=
      submitBidRun_bids_accepted s uid c.price min_price weight alpha beta gamma c.timeElapsedMs hc
    have hfind :
        findBid (submitBidRun s uid c.price min_price weight alpha beta gamma c.timeElapsedMs).bids
            uid
          = some ((upsertBid s.bids uid c.price
              (calculate_score c.price c.timeElapsedMs weight alpha beta gamma)
              c.timeElapsedMs).2) := by
      rw [hbids]; exact findBid_upsertBid _ _ _ _ _
    have hnum :
        ((upsertBid s.bids uid c.price
            (calculate_score c.price c.timeElapsedMs weight alpha beta gamma)
            c.timeElapsedMs).2).bidNumber = b0.bidNumber + 1 := by
      rw [upsertBid_snd_of_some hf]
    have hcount :
        countUser
            (submitBidRun s uid c.price min_price weight alpha beta gamma c.timeElapsedMs).bids uid
          = countUser s.bids uid := by
      rw [hbids]; exact countUser_upsertBid_of_some hf _ _ _
    obtain ⟨hcnt, b, hb, hbn⟩ :=
      ih (submitBidRun s uid c.price min_price weight alpha beta gamma c.timeElapsedMs)
        ((upsertBid s.bids uid c.price
            (calculate_score c.price c.timeElapsedMs weight alpha beta gamma)
            c.timeElapsedMs).2)
        (fun d hd => hacc d (by simp [hd])) hfind
    refine ⟨by rw [show submitSeq s uid min_price weight alpha beta gamma (c :: rest)
        = submitSeq (submitBidRun s uid c.price min_price weight alpha beta gamma c.timeElapsedMs)
            uid min_price weight alpha beta gamma rest from rfl, hcnt, hcount], b, ?_, ?_⟩
    · exact hb
    · rw [hbn, hnum]
      simp
      omega

/-! ### Claim theorems on the bid path -/

/-- C5 (confirmed): for any sequence of accepted SubmitBid calls by one
user, the durable bid table holds exactly one row for the user, the
first acceptance inserts it with bid_number 1, each later acceptance
overwrites price, score and elapsed-ms and increments bid_number, so the
final bid_number equals the number of accepted submissions. -/
theorem bid_upsert_single_row_bid_number (uid : Member)
    (min_price weight alpha beta gamma : ℚ) (calls : List SubmitCall) (s : BidState)
    (hacc : ∀ c ∈ calls, min_price ≤ c.price) (hnone : findBid s.bids uid = none)
    (hne : calls ≠ []) :
    (countUser (submitSeq s uid min_price weight alpha beta gamma calls).bids uid = 1 ∧
     ∃ b, findBid (submitSeq s uid min_price weight alpha beta gamma calls).bids uid = some b ∧
       b.bidNumber = calls.length) ∧
    (∀ (s2 : BidState) (b0 : BidRow) (c : SubmitCall), min_price ≤ c.price →
       findBid s2.bids uid = some b0 →
       findBid
           (submitBidRun s2 uid c.price min_price weight alpha beta gamma c.timeElapsedMs).bids uid
         = some { b0 with price := c.price,
                          score := calculate_score c.price c.timeElapsedMs weight alpha beta gamma,
                          timeElapsedMs := c.timeElapsedMs,
                          bidNumber := b0.bidNumber + 1 }) := by
  constructor
  · match calls, hne with
    | c :: rest, _ =>
      have hc : min_price ≤ c.price := hacc c (by simp)
      have hbids :
          (submitBidRun s uid c.price min_price weight alpha beta gamma c.timeElapsedMs).bids
            = (upsertBid s.bids uid c.price
                (calculate_score c.price c.timeElapsedMs weight alpha beta gamma)
                c.timeElapsedMs).1 :=
        submitBidRun_bids_accepted s uid c.price min_price weight alpha beta gamma
          c.timeElapsedMs hc
      have hfind :
          findBid
              (submitBidRun s uid c.price min_price weight alpha beta gamma
                c.timeElapsedMs).bids uid
            = some ((upsertBid s.bids uid c.price
                (calculate_score c.price c.timeElapsedMs weight alpha beta gamma)
                c.timeElapsedMs).2) := by
        rw [hbids]; exact findBid_upsertBid _ _ _ _ _
      have hrow :
          ((upsertBid s.bids uid c.price
              (calculate_score c.price c.timeElapsedMs weight alpha beta gamma)
              c.timeElapsedMs).2).bidNumber = 1 := by
        rw [upsertBid_snd_of_none hnone]
      have hcount :
          countUser
              (submitBidRun s uid c.price min_price weight alpha beta gamma
                c.timeElapsedMs).bids uid = 1 := by
        rw [hbids, countUser_upsertBid_of_none hnone, findBid_none_countUser hnone]
      obtain ⟨hcnt, b, hb, hbn⟩ :=
        submitSeq_existing uid min_price weight alpha beta gamma rest
          (submitBidRun s uid c.price min_price weight alpha beta gamma c.timeElapsedMs)
          ((upsertBid s.bids uid c.price
              (calculate_score c.price c.timeElapsedMs weight alpha beta gamma)
              c.timeElapsedMs).2)
          (fun d hd => hacc d (by simp [hd])) hfind
      refine ⟨by rw [show submitSeq s uid min_price weight alpha beta gamma (c :: rest)
          = submitSeq
              (submitBidRun s uid c.price min_price weight alpha beta gamma c.timeElapsedMs)
              uid min_price weight alpha beta gamma rest from rfl, hcnt, hcount],
        b, hb, ?_⟩
      rw [hbn, hrow]
      simp only [List.length_cons]
      omega
  · intro s2 b0 c hc hf
    rw [submitBidRun_bids_accepted s2 uid c.price min_price weight alpha beta gamma
      c.timeElapsedMs hc, findBid_upsertBid, upsertBid_snd_of_some hf]

/-- Witness for C5 at a concrete two-call sequence. -/
theorem bid_upsert_single_row_bid_number_witness :
    (∀ c ∈ demoCalls, (10 : ℚ) ≤ c.price) ∧
    (countUser (submitSeq emptyBidState "u1" 10 1 1 1000 100 demoCalls).bids "u1" = 1 ∧
     ∃ b, findBid (submitSeq emptyBidState "u1" 10 1 1 1000 100 demoCalls).bids "u1" = some b ∧
       b.bidNumber = demoCalls.length) :=
  ⟨by decide,
   (bid_upsert_single_row_bid_number "u1" 10 1 1 1000 100 demoCalls emptyBidState
     (by decide) rfl (by decide)).1⟩

/-- C4 (confirmed): an accepted bid stores score
alpha * P + beta / (T + 1) + gamma * W exactly (hence within any
nonnegative relative tolerance, in particular 1e-6), the denominator
T + 1 is nonzero for T ≥ 0, and for beta ≥ 0 the time term is bounded
by beta. -/
theorem stored_score_matches_formula (s : BidState) (uid : Member)
    (price min_price weight alpha beta gamma : ℚ) (T : ℕ)
    (hacc : min_price ≤ price) (hbeta : 0 ≤ beta) :
    (∃ bid rank s2,
       create_or_update_bid s uid price min_price weight alpha beta gamma T
         = .ok (bid, rank, s2) ∧
       findBid s2.bids uid = some bid ∧
       bid.score = alpha * price + beta / ((T : ℚ) + 1) + gamma * weight ∧
       |bid.score - (alpha * price + beta / ((T : ℚ) + 1) + gamma * weight)| ≤
         (1 / 1000000) * |alpha * price + beta / ((T : ℚ) + 1) + gamma * weight|) ∧
    ((T : ℚ) + 1 ≠ 0) ∧ beta / ((T : ℚ) + 1) ≤ beta := by
  have hT1 : (1 : ℚ) ≤ (T : ℚ) + 1 := le_add_of_nonneg_left (Nat.cast_nonneg T)
  refine ⟨?_, by positivity, div_le_self hbeta hT1⟩
  refine ⟨(upsertBid s.bids uid price (calculate_score price T weight alpha beta gamma) T).2,
    _, _, create_or_update_bid_accepted s uid price min_price weight alpha beta gamma T hacc,
    findBid_upsertBid _ _ _ _ _, ?_, ?_⟩
  · rw [(upsertBid_snd_fields s.bids uid price
      (calculate_score price T weight alpha beta gamma) T).2.2.1]
    rfl
  · rw [(upsertBid_snd_fields s.bids uid price
      (calculate_score price T weight alpha beta gamma) T).2.2.1]
    have : calculate_score price T weight alpha beta gamma
        = alpha * price + beta / ((T : ℚ) + 1) + gamma * weight := rfl
    rw [this, sub_self, abs_zero]
    positivity

/-- Witness for C4 at the literal scenario of the spec (P = 1000,
T = 500 ms, W = 2, alpha 1, beta 1000, gamma 100, min price 800). -/
theorem stored_score_matches_formula_witness :
    (800 : ℚ) ≤ 1000 ∧ (0 : ℚ) ≤ 1000 ∧
    ((∃ bid rank s2,
       create_or_update_bid emptyBidState "u1" 1000 800 2 1 1000 100 500
         = .ok (bid, rank, s2) ∧
       findBid s2.bids "u1" = some bid ∧
       bid.score = 1 * 1000 + 1000 / ((500 : ℕ) + 1 : ℚ) + 100 * 2 ∧
       |bid.score - (1 * 1000 + 1000 / ((500 : ℕ) + 1 : ℚ) + 100 * 2)| ≤
         (1 / 1000000) * |1 * 1000 + 1000 / ((500 : ℕ) + 1 : ℚ) + 100 * 2|) ∧
     (((500 : ℕ) : ℚ) + 1 ≠ 0) ∧ (1000 : ℚ) / (((500 : ℕ) : ℚ) + 1) ≤ 1000) :=
  ⟨by decide, by decide,
   stored_score_matches_formula emptyBidState "u1" 1000 800 2 1 1000 100 500
     (by decide) (by decide)⟩

/-- C7 (confirmed): a SubmitBid call with price strictly below the
product minimum fails with PRICE_TOO_LOW and leaves every piece of
state (durable bid table, sorted set, detail hashes, max-price cell)
unchanged. -/
theorem price_too_low_rejected_no_state_change (s : BidState) (uid : Member)
    (price min_price weight alpha beta gamma : ℚ) (T : ℕ) (h : price < min_price) :
    create_or_update_bid s uid price min_price weight alpha beta gamma T
      = .error ("PRICE_TOO_LOW") ∧
    submitBidRun s uid price min_price weight alpha beta gamma T = s := by
  have h1 : create_or_update_bid s uid price min_price weight alpha beta gamma T
      = .error ("PRICE_TOO_LOW") := by
    unfold create_or_update_bid
    rw [if_pos h]
  refine ⟨h1, ?_⟩
  unfold submitBidRun
  rw [h1]

/-- Witness for C7 at the literal scenario of the spec (min price 800,
submitted price 500). -/
theorem price_too_low_rejected_no_state_change_witness :
    (500 : ℚ) < 800 ∧
    (create_or_update_bid emptyBidState "u1" 500 800 1 1 1000 100 0
       = .error ("PRICE_TOO_LOW") ∧
     submitBidRun emptyBidState "u1" 500 800 1 1 1000 100 0 = emptyBidState) :=
  ⟨by decide,
   price_too_low_rejected_no_state_change emptyBidState "u1" 500 800 1 1 1000 100 0 (by decide)⟩

/-! ### Max-price cell -/

theorem max_price_cell_getD (cell : Option ℚ) (p : ℚ) :
    (update_max_price cell p).getD 0 = max (cell.getD 0) p := by
  unfold update_max_price
  by_cases h : cell.getD 0 < p
  · simp [h, max_eq_right (le_of_lt h)]
  · simp [h, max_eq_left (not_lt.mp h)]

theorem max_price_fold (ps : List ℚ) : ∀ cell : Option ℚ,
    (ps.foldl update_max_price cell).getD 0 = ps.foldl max (cell.getD 0) := by
  induction ps with
  | nil => intro cell; rfl
  | cons p rest ih => intro cell; simp [List.foldl, ih, max_price_cell_getD]

/-- C9 (confirmed): the cached max-price cell (absent reads as 0) only
ever grows, and after any sequence of update_max_price calls it holds
the maximum of 0 and all prices seen so far. -/
theorem max_price_monotone_fold :
    (∀ (cell : Option ℚ) (p : ℚ), cell.getD 0 ≤ (update_max_price cell p).getD 0) ∧
    (∀ ps : List ℚ, (ps.foldl update_max_price none).getD 0 = ps.foldl max 0) := by
  constructor
  · intro cell p
    rw [max_price_cell_getD]
    exact le_max_left _ _
  · intro ps
    simpa using max_price_fold ps none

/-! ### Helper lemmas on settlement -/

theorem settleWinnerStep_frame (s : SettleState) (r : RankEntry) :
    (settleWinnerStep s r).1.bids = s.bids ∧
    (settleWinnerStep s r).1.product = s.product ∧
    (settleWinnerStep s r).1.campaign = s.campaign ∧
    (settleWinnerStep s r).1.lockHeld = s.lockHeld ∧
    (settleWinnerStep s r).1.ranking = s.ranking := by
  by_cases hl : s.lockHeld
  · simp [settleWinnerStep, hl]
  · by_cases hd : (decrement_stock s.kvStock).1 < 0
    · simp [settleWinnerStep, hl, hd]
    · cases hf : findBid s.bids r.userId with
      | none => simp [settleWinnerStep, hl, hd, hf]
      | some b => simp [settleWinnerStep, hl, hd, hf]

theorem settleWinnerStep_some (s : SettleState) (r : RankEntry) (t : SettleState) (o : OrderRow)
    (h : settleWinnerStep s r = (t, some o)) :
    s.lockHeld = false ∧ 1 ≤ s.kvStock ∧ t.kvStock = s.kvStock - 1 ∧
    t.product = s.product ∧ t.bids = s.bids ∧ t.orders = s.orders ++ [o] ∧
    o.userId = r.userId ∧ o.finalRank = r.rank ∧ o.finalScore = r.score ∧
    o.status = "confirmed" ∧
    ∃ b, findBid s.bids r.userId = some b ∧ o.finalPrice = b.price := by
  by_cases hl : s.lockHeld
  · simp [settleWinnerStep, hl] at h
  · by_cases hkv : 1 ≤ s.kvStock
    · have hd : ¬ (s.kvStock - 1 < 0) := by omega
      cases hf : findBid s.bids r.userId with
      | none => simp [settleWinnerStep, hl, decrement_stock, hkv, hd, hf] at h
      | some b =>
        simp only [settleWinnerStep, hl, if_false, decrement_stock, hkv, if_true, hd, hf,
          Bool.false_eq_true, Prod.mk.injEq, Option.some.injEq] at h
        obtain ⟨ht, ho⟩ := h
        subst ht
        subst ho
        refine ⟨by simp [hl], hkv, rfl, rfl, rfl, rfl, rfl, rfl, rfl, rfl, b, rfl, rfl⟩
    · have hd : (decrement_stock s.kvStock).1 < 0 := by
        simp [decrement_stock, hkv]
      simp [settleWinnerStep, hl, hd] at h

theorem settleWinnerStep_none (s : SettleState) (r : RankEntry) (t : SettleState)
    (h : settleWinnerStep s r = (t, none)) :
    t.orders = s.orders := by
  by_cases hl : s.lockHeld
  · simp only [settleWinnerStep, hl, if_true, Prod.mk.injEq] at h
    rw [← h.1]
  · by_cases hd : (decrement_stock s.kvStock).1 < 0
    · simp only [settleWinnerStep, hl, Bool.false_eq_true, if_false, hd, if_true,
        Prod.mk.injEq] at h
      rw [← h.1]
    · cases hf : findBid s.bids r.userId with
      | none =>
        simp only [settleWinnerStep, hl, Bool.false_eq_true, if_false, hd, hf,
          Prod.mk.injEq] at h
        rw [← h.1]
      | some b =>
        simp [settleWinnerStep, hl, hd, hf] at h

theorem settleLoop_spec (ws : List RankEntry) : ∀ s : SettleState,
    (settleLoop s ws).1.bids = s.bids ∧
    (settleLoop s ws).1.product = s.product ∧
    (settleLoop s ws).2.length ≤ ws.length ∧
    ∀ o ∈ (settleLoop s ws).2,
      o.userId ∈ ws.map RankEntry.userId ∧
      ∃ b, findBid s.bids o.userId = some b ∧ o.finalPrice = b.price := by
  induction ws with
  | nil => intro s; simp [settleLoop]
  | cons r rest ih =>
    intro s
    cases hp : settleWinnerStep s r with
    | mk t oo =>
      have hframe := settleWinnerStep_frame s r
      rw [hp] at hframe
      obtain ⟨hb, hprod, _, _, _⟩ := hframe
      obtain ⟨ihb, ihp, ihl, ihm⟩ := ih t
      cases oo with
      | none =>
        have heq : settleLoop s (r :: rest)
            = ((settleLoop t rest).1, (settleLoop t rest).2) := by
          simp [settleLoop, hp]
        rw [heq]
        refine ⟨by rw [ihb, hb], by rw [ihp, hprod], ihl.trans (by simp), ?_⟩
        intro o ho
        obtain ⟨hm, b0, hb0, hpr⟩ := ihm o ho
        exact ⟨by simp [hm], b0, by rw [← hb]; exact hb0, hpr⟩
      | some o =>
        have heq : settleLoop s (r :: rest)
            = ((settleLoop t rest).1, o :: (settleLoop t rest).2) := by
          simp [settleLoop, hp]
        rw [heq]
        obtain ⟨_, _, _, _, _, _, huid, _, _, _, b0, hb0, hpr⟩ :=
          settleWinnerStep_some s r t o hp
        refine ⟨by rw [ihb, hb], by rw [ihp, hprod], by simpa using ihl, ?_⟩
        intro o2 ho2
        rcases List.mem_cons.mp ho2 with rfl | ho2
        · exact ⟨by simp [huid], b0, by rw [huid]; exact hb0, hpr⟩
        · obtain ⟨hm, b1, hb1, hpr1⟩ := ihm o2 ho2
          exact ⟨by simp [hm], b1, by rw [← hb]; exact hb1, hpr1⟩

theorem settle_campaign_ok (s : SettleState) (os : List OrderRow) (s1 : SettleState)
    (h : settle_campaign s = .ok (os, s1)) :
    ∃ c, s.campaign = some c ∧
      ((c.status = "ended" ∧ os = [] ∧ s1 = s) ∨
       (c.status ≠ "ended" ∧
        os = (settleLoop s (get_top_k s.ranking s.product.stock)).2 ∧
        s1 = { (settleLoop s (get_top_k s.ranking s.product.stock)).1 with
                campaign := some { c with status := "ended" } })) := by
  obtain ⟨camp, prod, kv, lock, rnk, bds, ords⟩ := s
  cases camp with
  | none => simp [settle_campaign] at h
  | some c =>
    by_cases hs : c.status = "ended"
    · simp only [settle_campaign, hs, if_true, Except.ok.injEq, Prod.mk.injEq] at h
      exact ⟨c, rfl, Or.inl ⟨hs, h.1.symm, h.2.symm⟩⟩
    · simp only [settle_campaign, hs, if_false, Except.ok.injEq, Prod.mk.injEq] at h
      exact ⟨c, rfl, Or.inr ⟨hs, h.1.symm, h.2.symm⟩⟩

theorem get_top_k_length (entries : List (Member × ℚ)) (k : ℕ) :
    (get_top_k entries k).length = (zrevrangeTop entries k).length := by
  simp [get_top_k]

theorem zrevrangeTop_length_le (entries : List (Member × ℚ)) (k : ℕ) (hk : k ≠ 0) :
    (zrevrangeTop entries k).length ≤ k := by
  unfold zrevrangeTop
  rw [if_neg hk]
  simp

/-! ### Claim theorems on settlement -/

/-- C6 (confirmed): settlement is idempotent.  Re-running settlement on
a campaign whose status is already "ended" returns the empty order list
and leaves the state untouched, and any successful settlement leaves the
campaign "ended", so a second run returns no orders and changes
nothing. -/
theorem settle_idempotent_on_ended :
    (∀ (s : SettleState) (c : CampaignRow), s.campaign = some c → c.status = "ended" →
       settle_campaign s = .ok ([], s)) ∧
    (∀ (s : SettleState) (os : List OrderRow) (s1 : SettleState),
       settle_campaign s = .ok (os, s1) →
       (∃ c1, s1.campaign = some c1 ∧ c1.status = "ended") ∧
       settle_campaign s1 = .ok ([], s1)) := by
  have part1 : ∀ (s : SettleState) (c : CampaignRow), s.campaign = some c →
      c.status = "ended" → settle_campaign s = .ok ([], s) := by
    intro s c hc hs
    unfold settle_campaign
    rw [hc]
    simp [hs]
  refine ⟨part1, ?_⟩
  intro s os s1 h
  obtain ⟨c, hc, hcase⟩ := settle_campaign_ok s os s1 h
  rcases hcase with ⟨hs, _, rfl⟩ | ⟨_, _, rfl⟩
  · exact ⟨⟨c, hc, hs⟩, part1 _ c hc hs⟩
  · exact ⟨⟨{ c with status := "ended" }, rfl, rfl⟩,
      part1 _ { c with status := "ended" } rfl rfl⟩

/-- Witness for C6: a concrete already-ended campaign state. -/
theorem settle_idempotent_on_ended_witness :
    settle_campaign endedState = .ok ([], endedState) :=
  settle_idempotent_on_ended.1 endedState { quota := 2, status := "ended" } rfl rfl

/-- C2 counterexample: at `liveStockState` the campaign quota is 3,
three bidders are ranked with an ample KV counter, the stock has been
drained to 1, and yet settlement creates exactly one order: the K used
for winner selection is the live `campaign.product.stock`, not the
snapshotted quota, refuting the claim. -/
theorem settle_uses_live_stock_not_quota_cex :
    liveStockState.campaign = some { quota := 3, status := "active" } ∧
    liveStockState.product.stock = 1 ∧
    liveStockState.kvStock = 3 ∧
    liveStockState.ranking.length = 3 ∧
    settle_campaign liveStockState = .ok (liveStockOrders, liveStockPost) ∧
    liveStockOrders.length = 1 := by
  exact ⟨rfl, rfl, rfl, rfl, by decide, rfl⟩

/-- C2 (corrected): SettleCampaign resolves the winner count K from the
live product stock: every settled order is drawn from the top K of the
ranking set for K = `product.stock`, the order count is bounded by the
size of that fetch, and, whenever the live stock is at least 1, by the
live stock itself (the claimed bound by the snapshotted quota holds only
when the quota agrees with the live stock). -/
theorem settle_winner_count_follows_live_stock (s : SettleState) (os : List OrderRow)
    (s1 : SettleState) (h : settle_campaign s = .ok (os, s1)) :
    os.length ≤ (get_top_k s.ranking s.product.stock).length ∧
    (∀ o ∈ os, o.userId ∈ (get_top_k s.ranking s.product.stock).map RankEntry.userId) ∧
    (1 ≤ s.product.stock → os.length ≤ s.product.stock) := by
  obtain ⟨c, hc, hcase⟩ := settle_campaign_ok s os s1 h
  rcases hcase with ⟨_, rfl, _⟩ | ⟨_, rfl, _⟩
  · exact ⟨by simp, by simp, fun _ => by simp⟩
  · obtain ⟨_, _, hlen, hmem⟩ := settleLoop_spec (get_top_k s.ranking s.product.stock) s
    refine ⟨hlen, fun o ho => (hmem o ho).1, fun hstock => ?_⟩
    refine hlen.trans ?_
    rw [get_top_k_length]
    exact zrevrangeTop_length_le s.ranking s.product.stock (by omega)

/-- Witness for C2 corrected theorem at `liveStockState`. -/
theorem settle_winner_count_follows_live_stock_witness :
    liveStockOrders.length ≤
      (get_top_k liveStockState.ranking liveStockState.product.stock).length ∧
    (∀ o ∈ liveStockOrders,
       o.userId ∈ (get_top_k liveStockState.ranking liveStockState.product.stock).map
         RankEntry.userId) ∧
    (1 ≤ liveStockState.product.stock → liveStockOrders.length ≤ liveStockState.product.stock) :=
  settle_winner_count_follows_live_stock liveStockState liveStockOrders liveStockPost (by decide)

/-- C3 counterexample: settling `fourLayerState` inserts an order while
leaving the durable product row untouched (stock still 1, version still
7), whereas the four-layer primitive
`decrement_stock_with_protection` on the same inputs succeeds and
updates the row to stock 0, version 8: the durable row lock and the
version-checked update are not applied before the order is inserted,
refuting the claim. -/
theorem settle_skips_durable_layers_cex :
    settle_campaign fourLayerState = .ok ([⟨"w1", 60, 500, 1, "confirmed"⟩], fourLayerPost) ∧
    fourLayerPost.product = fourLayerState.product ∧
    fourLayerPost.orders.length = 1 ∧
    decrement_stock_with_protection fourLayerState.product fourLayerState.kvStock false
      = (true, { stock := 0, version := 8 }, 0) := by
  exact ⟨by decide, rfl, rfl, by decide⟩

/-- C3 (corrected): before inserting an order for a winner, settlement
applies only the first two protection layers: the order is created only
when the distributed lock is free and the atomic KV decrement succeeded
(so the KV counter drops by one before the insert), while the durable
row lock and the version-checked update are never invoked: settlement
leaves the product row (stock and version) unchanged. -/
theorem settle_applies_lock_and_kv_decrement_only (s : SettleState) (r : RankEntry) :
    (∀ (t : SettleState) (o : OrderRow), settleWinnerStep s r = (t, some o) →
       s.lockHeld = false ∧ 1 ≤ s.kvStock ∧ t.kvStock = s.kvStock - 1 ∧
       t.product = s.product ∧ t.orders = s.orders ++ [o]) ∧
    (s.lockHeld = true → settleWinnerStep s r = (s, none)) ∧
    (∀ (os : List OrderRow) (s1 : SettleState), settle_campaign s = .ok (os, s1) →
       s1.product = s.product) := by
  refine ⟨?_, ?_, ?_⟩
  · intro t o h
    obtain ⟨h1, h2, h3, h4, _, h6, _⟩ := settleWinnerStep_some s r t o h
    exact ⟨h1, h2, h3, h4, h6⟩
  · intro hl
    simp [settleWinnerStep, hl]
  · intro os s1 h
    obtain ⟨c, hc, hcase⟩ := settle_campaign_ok s os s1 h
    rcases hcase with ⟨_, _, rfl⟩ | ⟨_, _, rfl⟩
    · rfl
    · exact (settleLoop_spec (get_top_k s.ranking s.product.stock) s).2.1

/-- Witness for C3 corrected theorem: one concrete settlement step. -/
theorem settle_applies_lock_and_kv_decrement_only_witness :
    stepWitnessState.lockHeld = false ∧ 1 ≤ stepWitnessState.kvStock ∧
    stepWitnessPost.kvStock = stepWitnessState.kvStock - 1 ∧
    stepWitnessPost.product = stepWitnessState.product ∧
    stepWitnessPost.orders = stepWitnessState.orders ++ [stepWitnessOrder] :=
  (settle_applies_lock_and_kv_decrement_only stepWitnessState ⟨1, "w1", 42⟩).1
    stepWitnessPost stepWitnessOrder (by decide)

/-- C10 (confirmed): when the KV decrement succeeded but the winner has
no durable bid row, the settlement step rolls the counter back by
exactly the amount decremented and creates nothing, so the state is
unchanged; and every order settlement ever creates carries the price of
an existing durable bid row of that user. -/
theorem settle_skip_missing_bid_restores_stock (s : SettleState) (r : RankEntry) :
    (s.lockHeld = false → 1 ≤ s.kvStock → findBid s.bids r.userId = none →
       settleWinnerStep s r = (s, none)) ∧
    (∀ (t : SettleState) (o : OrderRow), settleWinnerStep s r = (t, some o) →
       ∃ b, findBid s.bids r.userId = some b ∧ o.userId = r.userId ∧ o.finalPrice = b.price) ∧
    (∀ (os : List OrderRow) (s1 : SettleState), settle_campaign s = .ok (os, s1) →
       ∀ o ∈ os, ∃ b, findBid s.bids o.userId = some b ∧ o.finalPrice = b.price) := by
  refine ⟨?_, ?_, ?_⟩
  · intro hl hkv hf
    have hd : ¬ (s.kvStock - 1 < 0) := by omega
    have hkveq : s.kvStock - 1 + 1 = s.kvStock := by omega
    simp only [settleWinnerStep, hl, Bool.false_eq_true, if_false, decrement_stock, hkv,
      if_true, hd, hf, increment_stock, hkveq]
    rw [← hl]
  · intro t o h
    obtain ⟨_, _, _, _, _, _, huid, _, _, _, b, hb, hpr⟩ := settleWinnerStep_some s r t o h
    exact ⟨b, hb, huid, hpr⟩
  · intro os s1 h
    obtain ⟨c, hc, hcase⟩ := settle_campaign_ok s os s1 h
    rcases hcase with ⟨_, rfl, _⟩ | ⟨_, rfl, _⟩
    · intro o ho; simp at ho
    · intro o ho
      exact ((settleLoop_spec (get_top_k s.ranking s.product.stock) s).2.2.2 o ho).2

/-- Witness for C10: the ghost member has no bid row, the step leaves
the state unchanged and creates no order. -/
theorem settle_skip_missing_bid_restores_stock_witness :
    settleWinnerStep ghostBidState ⟨1, "ghost", 50⟩ = (ghostBidState, none) :=
  (settle_skip_missing_bid_restores_stock ghostBidState ⟨1, "ghost", 50⟩).1 rfl (by decide) rfl

/-- C1 (code bug): a campaign created on a zero-stock product (allowed:
the product schema accepts stock 0 and campaign creation snapshots
quota = product.stock with no positivity check) has quota K = 0, yet
settling it with two ranked bidders creates one order.  With K = 0 the
slice `ZREVRANGE key 0 (-1)` returns the whole ranking set, the first
winner's failed decrement is "rolled back" by incrementing a counter
that was never decremented, and the phantom unit lets the second winner
buy: the order count exceeds both K and the product stock. -/
theorem settle_oversells_zero_quota_campaign :
    zeroQuotaState.campaign = some { quota := 0, status := "active" } ∧
    zeroQuotaState.product.stock = 0 ∧
    zeroQuotaState.kvStock = 0 ∧
    (settle_campaign zeroQuotaState).toOption.map (fun p => p.1.length) = some 1 := by
  exact ⟨rfl, rfl, rfl, by decide⟩

/-! ### Claim theorems on the leaderboard tie-break -/

theorem zrevrangeTop_sorted (entries : List (Member × ℚ)) (k : ℕ) :
    List.Sorted zrevLe (zrevrangeTop entries k) := by
  unfold zrevrangeTop
  split
  · exact List.sorted_insertionSort zrevLe entries
  · exact List.Pairwise.sublist (List.take_sublist k _)
      (List.sorted_insertionSort zrevLe entries)

/-- C8 counterexample: two members with equal scores come back from the
top-K fetch with the lexicographically greater user id first ("u2"
before "u1"), i.e. in descending user-id order, refuting the claimed
ascending order. -/
theorem top_k_tie_order_cex :
    get_top_k demoTieEntries 2 = [⟨1, "u2", 5⟩, ⟨2, "u1", 5⟩] ∧
    ("u1" : Member) < "u2" := by
  refine ⟨by decide, ?_⟩
  rw [String.lt_iff_toList_lt]
  decide

/-- C8 (corrected): the top-K enumeration is deterministic, but equal
scores are listed in lexicographically descending member order
(`ZREVRANGE` reverses the sorted set, whose equal-score members are
ascending): among two members with the same score, the greater user id
occupies the earlier position, hence the smaller 1-based rank. -/
theorem top_k_tie_order_desc (entries : List (Member × ℚ)) (k : ℕ) (u v : Member) (sc : ℚ)
    (i j : ℕ) (hi : i < (zrevrangeTop entries k).length)
    (hj : j < (zrevrangeTop entries k).length) (hlt : v < u)
    (hgu : (zrevrangeTop entries k).get ⟨i, hi⟩ = (u, sc))
    (hgv : (zrevrangeTop entries k).get ⟨j, hj⟩ = (v, sc)) :
    i < j ∧ ∀ hik : i < (get_top_k entries k).length,
      (get_top_k entries k).get ⟨i, hik⟩ = ⟨i + 1, u, sc⟩ := by
  constructor
  · by_contra hij
    push_neg at hij
    rcases Nat.lt_or_ge j i with hji | hji
    · have hrel := (zrevrangeTop_sorted entries k).rel_get_of_lt
        (show (⟨j, hj⟩ : Fin (zrevrangeTop entries k).length) < ⟨i, hi⟩ from hji)
      rw [hgu, hgv] at hrel
      rcases hrel with hbad | ⟨_, hbad⟩
      · exact absurd hbad (lt_irrefl sc)
      · exact absurd hlt (not_lt.mpr hbad)
    · have hij2 : i = j := le_antisymm hji hij
      subst hij2
      rw [hgu] at hgv
      have : u = v := congrArg Prod.fst hgv
      subst this
      exact absurd hlt (lt_irrefl u)
  · intro hik
    have hik2 : i < ((zrevrangeTop entries k).enum.map
        (fun p => (⟨p.1 + 1, p.2.1, p.2.2⟩ : RankEntry))).length := hik
    unfold get_top_k
    rw [List.get_eq_getElem, List.getElem_map, List.getElem_enum]
    simp only
    rw [show (zrevrangeTop entries k)[i] = (u, sc) from by rw [← hgu]; simp]

/-- Witness for C8 corrected theorem at the concrete tie. -/
theorem top_k_tie_order_desc_witness :
    ("u1" : Member) < "u2" ∧
    ((0 : ℕ) < 1 ∧ ∀ hik : 0 < (get_top_k demoTieEntries 2).length,
       (get_top_k demoTieEntries 2).get ⟨0, hik⟩ = ⟨0 + 1, "u2", 5⟩) := by
  have hlt : ("u1" : Member) < "u2" := by
    rw [String.lt_iff_toList_lt]
    decide
  exact ⟨hlt, top_k_tie_order_desc demoTieEntries 2 "u2" "u1" 5 0 1 (by decide) (by decide)
    hlt (by decide) (by decide)⟩

end FlashSale
